import Mathlib

/-!
Verification development for the IPython completion engine
(`IPython/core/completer.py`).

The Python module is shallowly embedded below.  Pure Python string
operations are re-implemented on `List Char` with Python semantics
(`str.startswith`, `str.strip`, slicing, `re`-based splitting, the two
concrete regular expressions of the module).  External collaborators
(the filesystem via `glob`/`os.path`, `shlex`, expression evaluation via
`eval`, member enumeration via `dir2`/`generics.complete_object`,
callable introspection via `inspect.getargspec`, the magic and alias
catalogs, and the custom completer registry) are supplied through an
environment record, exactly at the call boundary the source uses them.
-/

/-- Characters that are awkward to write directly under this file's
lexical conventions. -/
def quoteChar : Char := Char.ofNat 39

def dquoteChar : Char := Char.ofNat 34

def backtickChar : Char := Char.ofNat 96

def mkStr (l : List Char) : String := String.mk l

/-- Python `len(s)` (character count). -/
def strLen (s : String) : Nat := s.toList.length

/-- Python slice `s[:n]`. -/
def strTake (s : String) (n : Nat) : String := mkStr (s.toList.take n)

/-- Python slice `s[n:]`. -/
def strDrop (s : String) (n : Nat) : String := mkStr (s.toList.drop n)

/-- `p` is a literal prefix of `l` (character-wise). -/
def listPfx : List Char → List Char → Bool
  | [], _ => true
  | _ :: _, [] => false
  | a :: s, b :: t => a == b && listPfx s t

/-- Python `s.startswith(p)`. -/
def strStartsWith (s p : String) : Bool := listPfx p.toList s.toList

/-- Python `s.endswith(p)`. -/
def strEndsWith (s p : String) : Bool := listPfx p.toList.reverse s.toList.reverse

/-- `pat` occurs contiguously somewhere in the character list. -/
def seqOccurs (pat : List Char) : List Char → Bool
  | [] => listPfx pat []
  | c :: t => listPfx pat (c :: t) || seqOccurs pat t

/-- Python `\s` for the `re` module without `re.UNICODE`:
space, tab, newline, carriage return, vertical tab, form feed. -/
def pyIsSpace (c : Char) : Bool :=
  c == ' ' || c == '\t' || c == '\n' || c == '\r' ||
  c == Char.ofNat 11 || c == Char.ofNat 12

/-- Python `\w` for the `re` module without `re.UNICODE`:
ASCII letters, digits and underscore. -/
def pyIsWordChar (c : Char) : Bool :=
  let n := c.toNat
  (decide (97 ≤ n) && decide (n ≤ 122)) ||
  (decide (65 ≤ n) && decide (n ≤ 90)) ||
  (decide (48 ≤ n) && decide (n ≤ 57)) || decide (n = 95)

/-- Python `s.strip()` (whitespace from both ends). -/
def str_strip (s : String) : String :=
  mkStr (((s.toList.dropWhile pyIsSpace).reverse.dropWhile pyIsSpace).reverse)

/-- Python `s.lstrip()` (whitespace from the left). -/
def pyLstripWS (s : String) : String := mkStr (s.toList.dropWhile pyIsSpace)

/-- Python `s.lstrip(chars)`: drop leading characters belonging to `chars`. -/
def pyLstripChars (s : String) (chars : String) : String :=
  mkStr (s.toList.dropWhile (fun c => chars.toList.contains c))

/-- ASCII model of Python `s.lower()` (all inputs in this module are ASCII). -/
def pyLowerChar (c : Char) : Char :=
  if 65 ≤ c.toNat ∧ c.toNat ≤ 90 then Char.ofNat (c.toNat + 32) else c

def strLower (s : String) : String := mkStr (s.toList.map pyLowerChar)

/-- Python `line.split(None, 1)[0]`: the first whitespace-delimited word
(the source only evaluates it on lines with a non-blank `strip()`). -/
def firstWord (s : String) : String :=
  mkStr ((s.toList.dropWhile pyIsSpace).takeWhile (fun c => !pyIsSpace c))

/-- Python `s.count(c)` for a single character. -/
def countChar (s : String) (c : Char) : Nat := s.toList.count c

/-- Python `s.split(c)[-1]`: the segment after the last occurrence of `c`
(the whole string when `c` does not occur). -/
def lastSegAfter (s : String) (c : Char) : String :=
  mkStr ((s.toList.reverse.takeWhile (fun x => x != c)).reverse)

/-- Python `s.replace(backslash, empty)`. -/
def removeBackslashes (s : String) : String :=
  mkStr (s.toList.filter (fun c => c != '\\'))

/-- `PROTECTABLES` for non-win32 platforms (the module sets `' ()'` there,
`' '` on win32; the posix value is embedded). -/
def PROTECTABLES : List Char := [' ', '(', ')']

/-- `protect_filename`: escape each protectable character with a backslash. -/
def protect_filename (s : String) : String :=
  mkStr ((s.toList.map (fun ch =>
    if PROTECTABLES.contains ch then ['\\', ch] else [ch])).foldr (· ++ ·) [])

/-- Filesystem-facing collaborators of the module: `glob.glob`,
`os.path.isdir`, `os.path.expanduser` and `shlex.split`
(`none` models `shlex.split` raising `ValueError`). -/
structure FsEnv where
  glob : String → List String
  isdir : String → Bool
  expanduser : String → String
  shlexSplit : String → Option (List String)

/-- `mark_dirs`: append a path separator to every entry the filesystem
reports as a directory. -/
def mark_dirs (fs : FsEnv) (ms : List String) : List String :=
  ms.map (fun x => if fs.isdir x then x ++ "/" else x)

/-- `CompletionSplitter._delims`, the default delimiter string
`' \t\n`!@#$^&*()=+[{]}\\|;:\'",<>?'`. -/
def default_delims : List Char :=
  [' ', '\t', '\n', backtickChar, '!', '@', '#', '$', '^', '&', '*', '(',
   ')', '=', '+', '[', '{', ']', '}', '\\', '|', ';', ':', quoteChar,
   dquoteChar, ',', '<', '>', '?']

/-- `CompletionSplitter.split_line`: split `line[:cursor_pos]` on the
delimiter character class and return the final segment, i.e. the longest
suffix free of delimiter characters. -/
def split_line (line : String) (cursorPos : Option Nat) : String :=
  let l := match cursorPos with
    | none => line
    | some c => strTake line c
  mkStr ((l.toList.reverse.takeWhile (fun c => !default_delims.contains c)).reverse)

/-- The `Bunch` event handed to custom completers: `line`, `symbol`
(the completion text) and `command` (first word of the line). -/
structure CompletionEvent where
  line : String
  symbol : String
  command : String
deriving Repr

/-- `ESC_MAGIC` from `IPython.core.prefilter` (not among the sources):
the magic escape is the percent sign. -/
def ESC_MAGIC : String := "%"

/-- The complete environment of an `IPCompleter` instance over an abstract
type `α` of Python objects: namespaces are seen through their key lists
(for prefix scans) and through an abstract `eval` capability (for dotted
resolution); `dir2`, `generics.complete_object` (where `none` models a
`TryNext` signal) and `inspect.getargspec` (argument names paired with
the number of defaults; `none` models `TypeError`) are the introspection
capabilities; the magic and alias catalogs are name lists; the custom
completer registry holds (pattern, callback) pairs where a callback
returning `none` models raising `TryNext`. -/
structure CompleterEnv (α : Type) where
  fs : FsEnv
  kwlist : List String
  builtins : List String
  namespaceKeys : List String
  globalKeys : List String
  evalNs : String → Option α
  evalGlobal : String → Option α
  dir2 : α → List String
  completeObject : α → List String → Option (List String)
  getargspec : α → Option (List String × Nat)
  magics : List String
  aliasKeys : List String
  mergeCompletions : Bool
  omit__names : Nat
  customS : List (String × (CompletionEvent → Option (List String)))
  customFlat : List (String × (CompletionEvent → Option (List String)))
  dumbTerminal : Bool
  rlLineBuffer : String
  rlEndidx : Nat

/-- `Completer.global_matches`: scan keywords, builtins, the primary and
the secondary namespace for names with `text` as a literal prefix
(`word[:n] == text`), suppressing `__builtins__`. -/
def global_matches {α : Type} (env : CompleterEnv α) (text : String) : List String :=
  let n := strLen text
  [env.kwlist, env.builtins, env.namespaceKeys, env.globalKeys].foldl
    (fun acc lst =>
      acc ++ lst.filter (fun w => strTake w n == text && w != "__builtins__")) []

/-- The match of the source pattern `r"(\S+(\.\w+)*)\.(\w*)$"` used by
`Completer.attr_matches`.  Characterisation of a successful `re.match`
over the whole text: the text contains no whitespace, has at least one
dot, the segment after its last dot consists of word characters only and
the part before that dot is nonempty; the groups returned are that head
(`expr`) and tail (`attr`). -/
def attrRegexMatch (text : String) : Option (String × String) :=
  let l := text.toList
  if l.any pyIsSpace then none
  else
    let r := l.reverse
    let attrRev := r.takeWhile (fun c => c != '.')
    match r.dropWhile (fun c => c != '.') with
    | [] => none
    | _ :: exprRev =>
      if exprRev.isEmpty then none
      else if attrRev.all pyIsWordChar then
        some (mkStr exprRev.reverse, mkStr attrRev.reverse)
      else none

/-- `Completer.attr_matches`: on a regex match, evaluate `expr` in the
primary namespace, falling back to the secondary one; on double failure
return `[]`.  Enumerate members with `dir2`, let
`generics.complete_object` extend them unless it signals `TryNext`,
filter by the `attr` prefix and re-qualify with `expr`. -/
def attr_matches {α : Type} (env : CompleterEnv α) (text : String) : List String :=
  match attrRegexMatch text with
  | none => []
  | some (expr, attr) =>
    let obj? := match env.evalNs expr with
      | some o => some o
      | none => env.evalGlobal expr
    match obj? with
    | none => []
    | some obj =>
      let words := env.dir2 obj
      let words := match env.completeObject obj words with
        | some ws => ws
        | none => words
      let n := strLen attr
      (words.filter (fun w => strTake w n == attr)).map
        (fun w => expr ++ "." ++ w)

/-- The `try shlex.split(lbuf)[-1] except ...` recovery of
`IPCompleter.file_matches`: a `ValueError` (`none` from the capability)
is recovered through the single-unmatched-quote special case, signalling
open-quote state; any other lex failure yields `none` here, which the
caller turns into an empty result.  An empty token list (`IndexError`)
yields the empty fragment. -/
def shlexRecover (fs : FsEnv) (lbuf : String) : Option (Bool × String) :=
  match fs.shlexSplit lbuf with
  | some xs =>
    match xs.getLast? with
    | some last => some (false, last)
    | none => some (false, "")
  | none =>
    if countChar lbuf dquoteChar = 1 then some (true, lastSegAfter lbuf dquoteChar)
    else if countChar lbuf quoteChar = 1 then some (true, lastSegAfter lbuf quoteChar)
    else none

/-- `IPCompleter._clean_glob` (posix variant; the win32 variant
additionally flips backslashes): glob on `text*`. -/
def clean_glob (fs : FsEnv) (text : String) : List String :=
  fs.glob (text ++ "*")

/-- `IPCompleter.file_matches` over the line fragment `lbuf`
(`self.lbuf`) and the completion token `text`. -/
def file_matches {α : Type} (env : CompleterEnv α) (lbuf text : String) : List String :=
  let bang := strStartsWith text "!"
  let textPfx := if bang then "!" else ""
  let textA := if bang then strDrop text 1 else text
  match shlexRecover env.fs lbuf with
  | none => []
  | some (open_quotes, lsplit) =>
    let has_protectables := lsplit != protect_filename lsplit
    let text0 := textA
    let text := if has_protectables then lsplit else env.fs.expanduser textA
    if text = "" then
      (env.fs.glob "*").map (fun f => textPfx ++ protect_filename f)
    else
      let m0 := clean_glob env.fs (removeBackslashes text)
      let ms :=
        if has_protectables then
          m0.map (fun f => textPfx ++ text0 ++ protect_filename (strDrop f (strLen lsplit)))
        else if open_quotes then m0
        else m0.map (fun f => textPfx ++ protect_filename f)
      mark_dirs env.fs ms

/-- `IPCompleter.magic_matches`: strip every leading magic-escape
character from the token, match the catalog on the bare remainder, and
re-apply the escape to every candidate. -/
def magic_matches {α : Type} (env : CompleterEnv α) (text : String) : List String :=
  let pre := ESC_MAGIC
  let baretext := pyLstripChars text pre
  (env.magics.filter (fun m => strStartsWith m baretext)).map (fun m => pre ++ m)

/-- `IPCompleter.alias_matches`: suppressed unless the token is in the
first word of the buffer or the buffer starts with `sudo`. -/
def alias_matches {α : Type} (env : CompleterEnv α) (lbuf text : String) : List String :=
  if (pyLstripWS lbuf).toList.contains ' ' &&
      !(strStartsWith (pyLstripWS lbuf) "sudo") then []
  else
    let text := env.fs.expanduser text
    if text = "" then env.aliasKeys
    else env.aliasKeys.filter (fun a => strStartsWith a text)

/-- The filter regex `r'.*\.__.*?__'` of `python_matches` (`omit__names
== 1`): matches iff the text decomposes as `a ++ ".__" ++ b ++ "__" ++ c`. -/
def matchDotDunder : List Char → Bool
  | [] => false
  | c :: t =>
    (c == '.' && listPfx ['_', '_'] t && seqOccurs ['_', '_'] (t.drop 2)) ||
    matchDotDunder t

/-- `IPCompleter.python_matches`: attribute matching for dotted tokens
(with the optional dunder/underscore post-filter), global matching
otherwise. -/
def python_matches {α : Type} (env : CompleterEnv α) (text : String) : List String :=
  if text.toList.contains '.' then
    let ms := attr_matches env text
    if strEndsWith text "." && env.omit__names != 0 then
      if env.omit__names == 1 then ms.filter (fun t => !matchDotDunder t.toList)
      else ms.filter (fun t => !seqOccurs ['.', '_'] t.toList)
    else ms
  else global_matches env text

/-- `IPCompleter._default_arguments`: the introspection capability
returns `inspect.getargspec` data for the (possibly
`__init__`/`__call__`-resolved) object as the argument-name list paired
with the number of trailing defaults (`none` models the `TypeError`
fallthrough); the source keeps `args[-len(defaults):]` when defaults
exist. -/
def default_arguments {α : Type} (env : CompleterEnv α) (obj : α) : List String :=
  match env.getargspec obj with
  | none => []
  | some (args, ndefaults) =>
    if ndefaults ≠ 0 then args.drop (args.length - ndefaults) else []

/-- Lazy scan for the closing quote of the `'.*?'` / `".*?"` alternatives
of the `__funcParamsRegex` tokenizer: the content up to the first `q` and
the remainder after it, or `none` when `q` never closes. -/
def takeUntilQuote (q : Char) : List Char → Option (List Char × List Char)
  | [] => none
  | c :: t =>
    if c = q then some ([], t)
    else
      match takeUntilQuote q t with
      | none => none
      | some (a, r) => some (c :: a, r)

theorem takeUntilQuote_len {q : Char} :
    ∀ {l a r : List Char}, takeUntilQuote q l = some (a, r) → r.length < l.length := by
  intro l
  induction l with
  | nil => intro a r h; simp [takeUntilQuote] at h
  | cons c t ih =>
    intro a r h
    by_cases hc : c = q
    · simp only [takeUntilQuote, if_pos hc] at h
      cases h
      simp
    · simp only [takeUntilQuote, if_neg hc] at h
      cases ht : takeUntilQuote q t with
      | none => rw [ht] at h; cases h
      | some p =>
        rw [ht] at h
        cases p with
        | mk a' r' =>
          cases h
          exact Nat.lt_trans (ih ht) (Nat.lt_succ_self _)

/-- Maximal run of word characters, for the `\w+` alternative. -/
def wordRun : List Char → List Char × List Char
  | [] => ([], [])
  | c :: t =>
    if pyIsWordChar c then
      let p := wordRun t
      (c :: p.1, p.2)
    else ([], c :: t)

theorem wordRun_len : ∀ l : List Char, (wordRun l).2.length ≤ l.length := by
  intro l
  induction l with
  | nil => simp [wordRun]
  | cons c t ih =>
    by_cases hc : pyIsWordChar c
    · simp only [wordRun, if_pos hc]
      exact Nat.le_trans ih (Nat.le_succ _)
    · simp only [wordRun, if_neg hc]
      exact Nat.le_refl _

/-- One fuel-indexed step stack for the tokenizer below.  Every
recursive call consumes at least one character, so seeding the fuel with
the buffer length computes the full token stream
(`funcParamsTokenizeAux_fuel` below makes that exact). -/
def funcParamsTokenizeAux : Nat → List Char → List String
  | 0, _ => []
  | _, [] => []
  | fuel + 1, c :: t =>
    if c = quoteChar then
      match takeUntilQuote quoteChar t with
      | some (content, rest) =>
        mkStr (quoteChar :: (content ++ [quoteChar])) :: funcParamsTokenizeAux fuel rest
      | none => mkStr [quoteChar] :: funcParamsTokenizeAux fuel t
    else if c = dquoteChar then
      match takeUntilQuote dquoteChar t with
      | some (content, rest) =>
        mkStr (dquoteChar :: (content ++ [dquoteChar])) :: funcParamsTokenizeAux fuel rest
      | none => mkStr [dquoteChar] :: funcParamsTokenizeAux fuel t
    else if pyIsWordChar c then
      mkStr (c :: (wordRun t).1) :: funcParamsTokenizeAux fuel (wordRun t).2
    else if pyIsSpace c then funcParamsTokenizeAux fuel t
    else mkStr [c] :: funcParamsTokenizeAux fuel t

/-- `re.findall` of `IPCompleter.__funcParamsRegex`
(`'.*?' | ".*?" | \w+ | \S`, VERBOSE and DOTALL) over the line buffer:
quoted strings (lazily closed), identifier runs, single non-space
characters; whitespace separates matches. -/
def funcParamsTokenize (l : List Char) : List String :=
  funcParamsTokenizeAux l.length l

/-- Fuel adequacy: any fuel at least the buffer length computes the same
token stream, so `funcParamsTokenize` is the total fixpoint of the scan. -/
theorem funcParamsTokenizeAux_fuel :
    ∀ (f1 : Nat) (l : List Char) (f2 : Nat), l.length ≤ f1 → l.length ≤ f2 →
      funcParamsTokenizeAux f1 l = funcParamsTokenizeAux f2 l := by
  intro f1
  induction f1 with
  | zero =>
    intro l f2 h1 _
    have hl : l = [] := List.eq_nil_of_length_eq_zero (Nat.le_zero.mp h1)
    subst hl
    cases f2 <;> rfl
  | succ f ih =>
    intro l f2 h1 h2
    cases l with
    | nil => cases f2 <;> rfl
    | cons c t =>
      cases f2 with
      | zero => exact absurd h2 (by simp)
      | succ f2' =>
        have ht1 : t.length ≤ f := Nat.lt_succ_iff.mp h1
        have ht2 : t.length ≤ f2' := Nat.lt_succ_iff.mp h2
        simp only [funcParamsTokenizeAux]
        by_cases hq : c = quoteChar
        · simp only [if_pos hq]
          cases htq : takeUntilQuote quoteChar t with
          | some p =>
            obtain ⟨a, r⟩ := p
            have hr : r.length ≤ t.length := Nat.le_of_lt (takeUntilQuote_len htq)
            dsimp only
            rw [ih r f2' (Nat.le_trans hr ht1) (Nat.le_trans hr ht2)]
          | none => rw [ih t f2' ht1 ht2]
        · simp only [if_neg hq]
          by_cases hdq : c = dquoteChar
          · simp only [if_pos hdq]
            cases htq : takeUntilQuote dquoteChar t with
            | some p =>
              obtain ⟨a, r⟩ := p
              have hr : r.length ≤ t.length := Nat.le_of_lt (takeUntilQuote_len htq)
              dsimp only
              rw [ih r f2' (Nat.le_trans hr ht1) (Nat.le_trans hr ht2)]
            | none => rw [ih t f2' ht1 ht2]
          · simp only [if_neg hdq]
            by_cases hw : pyIsWordChar c
            · simp only [if_pos hw]
              have hr : (wordRun t).2.length ≤ t.length := wordRun_len t
              rw [ih (wordRun t).2 f2' (Nat.le_trans hr ht1) (Nat.le_trans hr ht2)]
            · simp only [if_neg hw]
              by_cases hs : pyIsSpace c
              · simp only [if_pos hs]
                exact ih t f2' ht1 ht2
              · simp only [if_neg hs]
                rw [ih t f2' ht1 ht2]

/-- Step 1 of `python_func_kw_matches`: walk the reversed token stream
tracking parenthesis nesting until the nearest unclosed `(`; return the
tokens beyond it, or `none` when the loop exhausts the stream (the
`for`/`else` branch). -/
def findOpenParen : List String → Int → Option (List String)
  | [], _ => none
  | tok :: rest, openPar =>
    if tok = ")" then findOpenParen rest (openPar - 1)
    else if tok = "(" then
      (if openPar + 1 > 0 then some rest else findOpenParen rest (openPar + 1))
    else findOpenParen rest openPar

/-- `re.match(r'\w+$', tok)`: the token is a nonempty word-character run. -/
def isIdToken (s : String) : Bool :=
  !s.toList.isEmpty && s.toList.all pyIsWordChar

/-- Step 2 of `python_func_kw_matches`: accumulate the dotted identifier
chain walking backward (identifier, then a required dot, repeated); a
malformed link truncates the walk. -/
def collectIds : List String → List String
  | [] => []
  | tok :: rest =>
    if !isIdToken tok then []
    else
      match rest with
      | [] => [tok]
      | dot :: rest' => if dot = "." then tok :: collectIds rest' else [tok]

/-- `IPCompleter.python_func_kw_matches` over the full line buffer
(`self.get_line_buffer()`; in the readline flow this is exactly
`self.full_lbuf`) and the completion token. -/
def python_func_kw_matches {α : Type} (env : CompleterEnv α)
    (lineBuffer text : String) : List String :=
  if text.toList.contains '.' then []
  else
    let tokens := (funcParamsTokenize lineBuffer.toList).reverse
    match findOpenParen tokens 0 with
    | none => []
    | some rest =>
      let ids := collectIds rest
      let callableMatches :=
        if ids.length = 1 then global_matches env (ids.headD "")
        else attr_matches env (String.intercalate "." ids.reverse)
      callableMatches.foldl (fun acc cm =>
        match env.evalNs cm with
        | none => acc
        | some obj =>
          acc ++ ((default_arguments env obj).filter
            (fun a => strStartsWith a text)).map (fun a => a ++ "=")) []

/-- Modelled from the spec: the custom completer registry (`StrDispatch`
from `IPython.utils.strdispatch`, which is not among the sources) matches
string patterns by exact match on the command name; `s_matches key`
returns the callbacks registered under exactly `key`. -/
def s_matches (reg : List (String × (CompletionEvent → Option (List String))))
    (key : String) : List (CompletionEvent → Option (List String)) :=
  (reg.filter (fun p => p.1 == key)).map Prod.snd

/-- Modelled from the spec: `flat_matches buf` returns the callbacks
whose "flat" pattern matches anywhere against the raw buffer. -/
def flat_matches (reg : List (String × (CompletionEvent → Option (List String))))
    (buf : String) : List (CompletionEvent → Option (List String)) :=
  (reg.filter (fun p => seqOccurs p.1.toList buf.toList)).map Prod.snd

/-- The per-callback result filter of `dispatch_custom_completer`: keep
the case-sensitive prefix matches; if none qualify, fall back to
case-insensitive prefix matches (possibly empty) before returning. -/
def caseFilter (text : String) (res : List String) : List String :=
  let withcase := res.filter (fun r => strStartsWith r text)
  if withcase.isEmpty then
    res.filter (fun r => strStartsWith (strLower r) (strLower text))
  else withcase

/-- The callback loop of `dispatch_custom_completer`: invoke each
callback in turn; a `TryNext` (`none`) moves on to the next one, a
normal return short-circuits with the case-filtered result (which may be
empty). -/
def dispatchLoop (ev : CompletionEvent) (text : String) :
    List (CompletionEvent → Option (List String)) → Option (List String)
  | [] => none
  | c :: rest =>
    match c ev with
    | none => dispatchLoop ev text rest
    | some res => some (caseFilter text res)

/-- The event `dispatch_custom_completer` builds: full line, symbol,
first word as the command. -/
def dispatchEvent (line text : String) : CompletionEvent :=
  ⟨line, text, firstWord line⟩

/-- The chain of candidate callbacks consulted by
`dispatch_custom_completer`: callbacks registered for the command word,
then — only when the command does not already carry the magic escape —
callbacks registered for the magic-escaped command, then flat-pattern
callbacks against the truncated buffer.  A blank line consults nothing. -/
def dispatchChain {α : Type} (env : CompleterEnv α) (full_lbuf lbuf : String) :
    List (CompletionEvent → Option (List String)) :=
  if str_strip full_lbuf = "" then []
  else
    let cmd := firstWord full_lbuf
    let try_magic :=
      if strStartsWith cmd ESC_MAGIC then []
      else s_matches env.customS (ESC_MAGIC ++ cmd)
    s_matches env.customS cmd ++ try_magic ++ flat_matches env.customFlat lbuf

/-- `IPCompleter.dispatch_custom_completer`: `none` is the "no override"
outcome (blank line, or every candidate callback deferred). -/
def dispatch_custom_completer {α : Type} (env : CompleterEnv α)
    (full_lbuf lbuf text : String) : Option (List String) :=
  if str_strip full_lbuf = "" then none
  else dispatchLoop (dispatchEvent full_lbuf text) text (dispatchChain env full_lbuf lbuf)

/-- The built-in matcher pipeline `self.matchers`, in registration order. -/
def runMatchers {α : Type} (env : CompleterEnv α) (full_lbuf lbuf text : String) :
    List (List String) :=
  [python_matches env text,
   file_matches env lbuf text,
   magic_matches env text,
   alias_matches env lbuf text,
   python_func_kw_matches env full_lbuf text]

/-- First-match mode: stop at the first matcher with a non-empty result
(the result is that of the last matcher tried, hence `[]` when all are
empty). -/
def firstNonempty : List (List String) → List String
  | [] => []
  | m :: rest => if m.isEmpty then firstNonempty rest else m

/-- The two pipeline modes of `IPCompleter.complete`, selected by
`merge_completions`. -/
def pipelineMatches {α : Type} (env : CompleterEnv α) (full_lbuf lbuf text : String) :
    List String :=
  let results := runMatchers env full_lbuf lbuf text
  if env.mergeCompletions then results.foldl (fun acc m => acc ++ m) []
  else firstNonempty results

/-- Strict lexicographic comparison of character code points, the order
Python `sorted` uses on strings. -/
def listLexLt : List Char → List Char → Bool
  | [], [] => false
  | [], _ :: _ => true
  | _ :: _, [] => false
  | a :: s, b :: t => decide (a.toNat < b.toNat) || (a == b && listLexLt s t)

def strLt (a b : String) : Bool := listLexLt a.toList b.toList

def strLe (a b : String) : Bool := strLt a b || a == b

/-- Python `sorted(set(l))`: the lexicographically sorted list of the
distinct elements of `l`. -/
def sortedSet (l : List String) : List String :=
  List.insertionSort (fun a b => strLe a b = true) l.dedup

/-- Tilde expansion applied by `IPCompleter.complete` before dispatch. -/
def expandIfTilde {α : Type} (env : CompleterEnv α) (text : String) : String :=
  if strStartsWith text "~" then env.fs.expanduser text else text

/-- The body of `IPCompleter.complete` once `text`, `line_buffer` and
`cursor_pos` are resolved: expand a leading tilde, consult the custom
completer registry, otherwise run the matcher pipeline, and return the
resolved token with the sorted, deduplicated aggregate. -/
def completeCore {α : Type} (env : CompleterEnv α) (text lineBuffer : String)
    (cursorPos : Nat) : String × List String :=
  let full_lbuf := lineBuffer
  let lbuf := strTake full_lbuf cursorPos
  let text2 := expandIfTilde env text
  let ms :=
    match dispatch_custom_completer env full_lbuf lbuf text2 with
    | some res => res
    | none => pipelineMatches env full_lbuf lbuf text2
  (text2, sortedSet ms)

/-- The `cursor_pos` defaulting of `IPCompleter.complete`: when absent,
the length of `line_buffer` if `text` is absent, else the length of
`text` (`none` models the `TypeError` on `len(None)`). -/
def cursorDefault (cursorPos? : Option Nat) (text? lineBuffer? : Option String) :
    Option Nat :=
  match cursorPos? with
  | some c => some c
  | none =>
    match text? with
    | none => lineBuffer?.map strLen
    | some t => some (strLen t)

/-- The `text` defaulting of `IPCompleter.complete`: a missing or empty
`text` is re-derived by splitting the line buffer (`none` models the
failure when no line buffer exists either). -/
def resolveTextArg (text? lineBuffer? : Option String) (cursorPos : Nat) :
    Option String :=
  match text? with
  | some t =>
    if t = "" then lineBuffer?.map (fun lb => split_line lb (some cursorPos))
    else some t
  | none => lineBuffer?.map (fun lb => split_line lb (some cursorPos))

/-- `IPCompleter.complete`: the batch protocol.  `none` models the
failure on a malformed request (neither `text` nor `line_buffer`). -/
def complete {α : Type} (env : CompleterEnv α) (text? lineBuffer? : Option String)
    (cursorPos? : Option Nat) : Option (String × List String) :=
  match cursorDefault cursorPos? text? lineBuffer? with
  | none => none
  | some cursorPos =>
    match resolveTextArg text? lineBuffer? cursorPos with
    | none => none
    | some text => some (completeCore env text (lineBuffer?.getD text) cursorPos)

/-- The mutable `self.matches` slot read by the indexed protocol. -/
structure RLState where
  ms : List String
deriving Repr

/-- The batch match list `rlcomplete` computes at `state == 0` from the
readline-provided buffer and cursor (the `getD` default is unreachable:
with both arguments supplied `complete` always succeeds). -/
def rlBatch {α : Type} (env : CompleterEnv α) (text : String) : List String :=
  ((complete env (some text) (some env.rlLineBuffer) (some env.rlEndidx)).getD
    ("", [])).2

/-- `IPCompleter.rlcomplete`: the indexed protocol.  At `state == 0` on a
blank buffer of a non-dumb terminal, a literal tab is inserted instead
(a side effect outside this model) and `None` is returned without
recomputing; otherwise `state == 0` recomputes `self.matches` and every
call serves `self.matches[state]`, with `IndexError` mapped to `None`. -/
def rlcomplete {α : Type} (env : CompleterEnv α) (st : RLState) (text : String)
    (state : Nat) : RLState × Option String :=
  if state = 0 then
    if ¬(env.dumbTerminal = true ∨ str_strip env.rlLineBuffer ≠ "") then (st, none)
    else
      let st' : RLState := ⟨rlBatch env text⟩
      (st', st'.ms[state]?)
  else (st, st.ms[state]?)

/-- Successive outputs of the indexed protocol starting from readline
state `s` with completer state `st`, for `n` calls. -/
def rlRunFrom {α : Type} (env : CompleterEnv α) (text : String) :
    RLState → Nat → Nat → List (Option String)
  | _, _, 0 => []
  | st, s, n + 1 =>
    let p := rlcomplete env st text s
    p.2 :: rlRunFrom env text p.1 (s + 1) n

/-- The outputs of `rlcomplete` invoked with states `0, 1, …, n-1` on a
fresh completer (`self.matches` starts empty). -/
def rlRun {α : Type} (env : CompleterEnv α) (text : String) (n : Nat) :
    List (Option String) :=
  rlRunFrom env text ⟨[]⟩ 0 n

/-- A minimal concrete environment over `Unit` objects: empty catalogs
and namespaces, an empty filesystem whose `shlex` accepts everything as
an empty token list, identity tilde expansion. -/
def baseEnvU : CompleterEnv Unit :=
  { fs := ⟨fun _ => [], fun _ => false, id, fun _ => some []⟩
    kwlist := []
    builtins := []
    namespaceKeys := []
    globalKeys := []
    evalNs := fun _ => none
    evalGlobal := fun _ => none
    dir2 := fun _ => []
    completeObject := fun _ _ => none
    getargspec := fun _ => none
    magics := []
    aliasKeys := []
    mergeCompletions := true
    omit__names := 0
    customS := []
    customFlat := []
    dumbTerminal := false
    rlLineBuffer := ""
    rlEndidx := 0 }

theorem char_eq_of_toNat_eq {a b : Char} (h : a.toNat = b.toNat) : a = b :=
  Char.eq_of_val_eq (UInt32.ext h)

theorem listLexLt_trans : ∀ {s t u : List Char},
    listLexLt s t = true → listLexLt t u = true → listLexLt s u = true := by
  intro s
  induction s with
  | nil =>
    intro t u h1 h2
    cases t with
    | nil => simp [listLexLt] at h1
    | cons b t' =>
      cases u with
      | nil => simp [listLexLt] at h2
      | cons c u' => simp [listLexLt]
  | cons a s ih =>
    intro t u h1 h2
    cases t with
    | nil => simp [listLexLt] at h1
    | cons b t' =>
      cases u with
      | nil => simp [listLexLt] at h2
      | cons c u' =>
        simp only [listLexLt, Bool.or_eq_true, Bool.and_eq_true, decide_eq_true_eq,
          beq_iff_eq] at h1 h2 ⊢
        rcases h1 with h1 | ⟨hab, h1⟩
        · rcases h2 with h2 | ⟨hbc, h2⟩
          · exact Or.inl (Nat.lt_trans h1 h2)
          · exact Or.inl (hbc ▸ h1)
        · rcases h2 with h2 | ⟨hbc, h2⟩
          · subst hab; exact Or.inl h2
          · subst hab; exact Or.inr ⟨hbc, ih h1 h2⟩

theorem listLexLt_connex : ∀ s t : List Char,
    listLexLt s t = true ∨ s = t ∨ listLexLt t s = true := by
  intro s
  induction s with
  | nil =>
    intro t
    cases t with
    | nil => exact Or.inr (Or.inl rfl)
    | cons b t' => exact Or.inl (by simp [listLexLt])
  | cons a s ih =>
    intro t
    cases t with
    | nil => exact Or.inr (Or.inr (by simp [listLexLt]))
    | cons b t' =>
      rcases Nat.lt_trichotomy a.toNat b.toNat with h | h | h
      · exact Or.inl (by simp [listLexLt, h])
      · have hab : a = b := char_eq_of_toNat_eq h
        subst hab
        rcases ih t' with h' | h' | h'
        · exact Or.inl (by simp [listLexLt, h'])
        · exact Or.inr (Or.inl (by rw [h']))
        · exact Or.inr (Or.inr (by simp [listLexLt, h']))
      · exact Or.inr (Or.inr (by simp [listLexLt, h]))

instance strLeIsTotal : IsTotal String (fun a b => strLe a b = true) := by
  constructor
  intro a b
  rcases listLexLt_connex a.toList b.toList with h | h | h
  · exact Or.inl (by simp only [strLe, strLt, Bool.or_eq_true]; exact Or.inl h)
  · have : a = b := String.ext h
    exact Or.inl (by simp [strLe, this])
  · exact Or.inr (by simp only [strLe, strLt, Bool.or_eq_true]; exact Or.inl h)

instance strLeIsTrans : IsTrans String (fun a b => strLe a b = true) := by
  constructor
  intro a b c h1 h2
  simp only [strLe, strLt, Bool.or_eq_true, beq_iff_eq] at h1 h2 ⊢
  rcases h1 with h1 | h1
  · rcases h2 with h2 | h2
    · exact Or.inl (listLexLt_trans h1 h2)
    · exact Or.inl (h2 ▸ h1)
  · subst h1; exact h2

theorem strLe_ne_lt {a b : String} (hle : strLe a b = true) (hne : a ≠ b) :
    strLt a b = true := by
  simp only [strLe, Bool.or_eq_true, beq_iff_eq] at hle
  rcases hle with h | h
  · exact h
  · exact absurd h hne

theorem sortedSet_nodup (l : List String) : (sortedSet l).Nodup :=
  ((List.perm_insertionSort _ _).nodup_iff).mpr (List.nodup_dedup l)

theorem sortedSet_sorted (l : List String) :
    (sortedSet l).Sorted (fun a b => strLt a b = true) := by
  have hle : (sortedSet l).Sorted (fun a b => strLe a b = true) :=
    List.sorted_insertionSort _ _
  have hnd : (sortedSet l).Nodup := sortedSet_nodup l
  exact (List.Pairwise.and hle hnd).imp (fun h => strLe_ne_lt h.1 h.2)

theorem dispatchLoop_none_iff (ev : CompletionEvent) (text : String) :
    ∀ cs : List (CompletionEvent → Option (List String)),
      dispatchLoop ev text cs = none ↔ ∀ c ∈ cs, c ev = none := by
  intro cs
  induction cs with
  | nil => simp [dispatchLoop]
  | cons c rest ih =>
    simp only [dispatchLoop]
    cases hc : c ev with
    | none => simp [hc, ih]
    | some res => simp [hc]

theorem completeCore_dispatch_some {α : Type} (env : CompleterEnv α)
    (text lineBuffer : String) (cursorPos : Nat) (res : List String)
    (h : dispatch_custom_completer env lineBuffer (strTake lineBuffer cursorPos)
      (expandIfTilde env text) = some res) :
    completeCore env text lineBuffer cursorPos = (expandIfTilde env text, sortedSet res) := by
  simp only [completeCore, h]

theorem completeCore_dispatch_none {α : Type} (env : CompleterEnv α)
    (text lineBuffer : String) (cursorPos : Nat)
    (h : dispatch_custom_completer env lineBuffer (strTake lineBuffer cursorPos)
      (expandIfTilde env text) = none) :
    completeCore env text lineBuffer cursorPos =
      (expandIfTilde env text, sortedSet (pipelineMatches env lineBuffer
        (strTake lineBuffer cursorPos) (expandIfTilde env text))) := by
  simp only [completeCore, h]

theorem completeCore_sorted_nodup {α : Type} (env : CompleterEnv α)
    (text lineBuffer : String) (cursorPos : Nat) :
    ((completeCore env text lineBuffer cursorPos).2).Sorted (fun a b => strLt a b = true) ∧
    ((completeCore env text lineBuffer cursorPos).2).Nodup :=
  ⟨sortedSet_sorted _, sortedSet_nodup _⟩

/-- C3: every match list returned by `IPCompleter.complete` — in merge
mode, in first-match mode, and when a custom completer override supplies
the candidates (the environment quantifies over all three) — is
lexicographically sorted and free of duplicates, because the final
`sorted(set(...))` step is applied on every path. -/
theorem complete_matchset_sorted_nodup {α : Type} (env : CompleterEnv α)
    (text? lineBuffer? : Option String) (cursorPos? : Option Nat)
    (text : String) (ms : List String)
    (h : complete env text? lineBuffer? cursorPos? = some (text, ms)) :
    ms.Sorted (fun a b => strLt a b = true) ∧ ms.Nodup := by
  unfold complete at h
  cases hc : cursorDefault cursorPos? text? lineBuffer? with
  | none => rw [hc] at h; cases h
  | some cursorPos =>
    rw [hc] at h
    dsimp only at h
    cases hr : resolveTextArg text? lineBuffer? cursorPos with
    | none => rw [hr] at h; cases h
    | some t2 =>
      rw [hr] at h
      dsimp only at h
      injection h with h'
      have hms : ms = (completeCore env t2 (lineBuffer?.getD t2) cursorPos).2 :=
        (congrArg Prod.snd h').symm
      rw [hms]
      exact completeCore_sorted_nodup env t2 (lineBuffer?.getD t2) cursorPos

/-- Witness for C3 at a concrete request. -/
theorem complete_matchset_sorted_nodup_witness :
    ([] : List String).Sorted (fun a b => strLt a b = true) ∧ ([] : List String).Nodup :=
  complete_matchset_sorted_nodup baseEnvU (some "x") none none "x" [] (by decide)

/-- C4: a non-`None` result of `dispatch_custom_completer` — even an
empty candidate list — becomes the match set and the built-in pipeline
is not consulted; the pipeline runs exactly when dispatch yields `None`,
and dispatch yields `None` precisely when every candidate callback of
the dispatch chain defers (on a blank line that chain is empty). -/
theorem custom_override_short_circuit {α : Type} (env : CompleterEnv α)
    (text lineBuffer : String) (cursorPos : Nat) :
    (∀ res, dispatch_custom_completer env lineBuffer (strTake lineBuffer cursorPos)
        (expandIfTilde env text) = some res →
      completeCore env text lineBuffer cursorPos = (expandIfTilde env text, sortedSet res)) ∧
    (dispatch_custom_completer env lineBuffer (strTake lineBuffer cursorPos)
        (expandIfTilde env text) = none →
      completeCore env text lineBuffer cursorPos =
        (expandIfTilde env text, sortedSet (pipelineMatches env lineBuffer
          (strTake lineBuffer cursorPos) (expandIfTilde env text)))) ∧
    (dispatch_custom_completer env lineBuffer (strTake lineBuffer cursorPos)
        (expandIfTilde env text) = none ↔
      ∀ c ∈ dispatchChain env lineBuffer (strTake lineBuffer cursorPos),
        c (dispatchEvent lineBuffer (expandIfTilde env text)) = none) := by
  refine ⟨?_, ?_, ?_⟩
  · intro res h
    exact completeCore_dispatch_some env text lineBuffer cursorPos res h
  · intro h
    exact completeCore_dispatch_none env text lineBuffer cursorPos h
  · by_cases hb : str_strip lineBuffer = ""
    · simp [dispatch_custom_completer, dispatchChain, hb]
    · simp only [dispatch_custom_completer, dispatchChain, if_neg hb]
      exact dispatchLoop_none_iff _ _ _

def cbC4 : CompletionEvent → Option (List String) := fun _ => some []

def envC4 : CompleterEnv Unit := { baseEnvU with customS := [("foo", cbC4)] }

/-- Witness for C4: a custom completer returning zero candidates still
short-circuits the pipeline. -/
theorem custom_override_short_circuit_witness :
    completeCore envC4 "zz" "foo zz" 6 = ("zz", sortedSet []) :=
  (custom_override_short_circuit envC4 "zz" "foo zz" 6).1 [] (by decide)

def cbC10 : CompletionEvent → Option (List String) := fun _ => some ["fired"]

def envC10 : CompleterEnv Unit :=
  { baseEnvU with customS := [("foo", cbC10)], customFlat := [("", cbC10)] }

/-- C10: on a line that is empty or all-whitespace,
`dispatch_custom_completer` returns `None` without consulting any
registered callback (the dispatch chain is empty), so the built-in
matcher pipeline always runs. -/
theorem blank_line_no_custom {α : Type} (env : CompleterEnv α)
    (lineBuffer text : String) (cursorPos : Nat)
    (h : str_strip lineBuffer = "") :
    dispatch_custom_completer env lineBuffer (strTake lineBuffer cursorPos)
      (expandIfTilde env text) = none ∧
    dispatchChain env lineBuffer (strTake lineBuffer cursorPos) = [] ∧
    completeCore env text lineBuffer cursorPos =
      (expandIfTilde env text, sortedSet (pipelineMatches env lineBuffer
        (strTake lineBuffer cursorPos) (expandIfTilde env text))) := by
  have hd : dispatch_custom_completer env lineBuffer (strTake lineBuffer cursorPos)
      (expandIfTilde env text) = none := by
    simp [dispatch_custom_completer, h]
  refine ⟨hd, ?_, ?_⟩
  · simp [dispatchChain, h]
  · exact completeCore_dispatch_none env text lineBuffer cursorPos hd

/-- Witness for C10: a registry whose flat pattern would fire on any
non-blank buffer still never fires on a blank one. -/
theorem blank_line_no_custom_witness :
    dispatch_custom_completer envC10 "   " (strTake "   " 1) (expandIfTilde envC10 "x") = none ∧
    dispatchChain envC10 "   " (strTake "   " 1) = [] ∧
    completeCore envC10 "x" "   " 1 =
      (expandIfTilde envC10 "x", sortedSet (pipelineMatches envC10 "   "
        (strTake "   " 1) (expandIfTilde envC10 "x"))) :=
  blank_line_no_custom envC10 "   " "x" 1 (by decide)

/-- C1 (amended): an empty resolved token (with an empty line fragment,
whose shell-lexing yields no last token) expands to one candidate per
entry of `glob("*")`, each escaped through `protect_filename`; the
directory-marking step is NOT applied on this early-return path. -/
theorem file_matches_empty_token {α : Type} (env : CompleterEnv α)
    (h1 : env.fs.shlexSplit "" = some []) (h2 : env.fs.expanduser "" = "") :
    file_matches env "" "" = (env.fs.glob "*").map (fun f => protect_filename f) := by
  have hsr : shlexRecover env.fs "" = some (false, "") := by
    unfold shlexRecover
    rw [h1]
    rfl
  have happ : ∀ s : String, "" ++ s = s := fun _ => rfl
  unfold file_matches
  rw [hsr]
  simp only [show strStartsWith "" "!" = false from rfl,
    show protect_filename "" = "" from rfl, Bool.false_eq_true, if_false,
    bne_self_eq_false, h2, if_true, happ]

def fsC1 : FsEnv :=
  ⟨fun p => if p = "*" then ["a.txt", "sub"] else [], fun s => s == "sub", id,
   fun _ => some []⟩

def envC1 : CompleterEnv Unit := { baseEnvU with fs := fsC1 }

/-- C1 counterexample: with the current directory holding `a.txt` (a
file) and `sub` (a directory), the empty token yields `["a.txt", "sub"]`
— the directory candidate carries no trailing separator, refuting the
claimed `["a.txt", "sub/"]`. -/
theorem file_matches_empty_token_cex :
    envC1.fs.isdir "sub" = true ∧ file_matches envC1 "" "" = ["a.txt", "sub"] ∧
    file_matches envC1 "" "" ≠ ["a.txt", "sub/"] := by decide

/-- Witness for C1 (amended) on the concrete two-entry directory. -/
theorem file_matches_empty_token_witness :
    file_matches envC1 "" "" = ["a.txt", "sub"] := by
  rw [file_matches_empty_token envC1 (by decide) rfl]
  decide

def fsC2 : FsEnv := ⟨fun _ => [], fun _ => false, id, fun s => some [s]⟩

def envC2 : CompleterEnv Unit := { baseEnvU with magics := ["cd"], fs := fsC2 }

/-- C2 counterexample: for token `cd` with magic catalog `["cd"]`, the
returned match set of `IPCompleter.complete` is `["%cd"]`, and `%cd`
does not begin with the resolved token `cd`; the candidate is produced
by the built-in magic matcher, not by a custom completer. -/
theorem magic_breaks_token_invariant_cex :
    (completeCore envC2 "cd" "cd" 2).2 = ["%cd"] ∧
    strStartsWith "%cd" "cd" = false ∧ envC2.customS.map Prod.fst = [] := by decide

theorem pyLstripChars_escape (rest : String)
    (hrest : strStartsWith rest ESC_MAGIC = false) :
    pyLstripChars (ESC_MAGIC ++ rest) ESC_MAGIC = rest := by
  have hstep : ∀ l : List Char, listPfx ['%'] l = false →
      l.dropWhile (fun c => ESC_MAGIC.toList.contains c) = l := by
    intro l hl
    cases l with
    | nil => rfl
    | cons c t =>
      have hne : ¬ c = '%' := by
        intro hceq
        subst hceq
        simp [listPfx] at hl
      have hcond : (ESC_MAGIC.toList.contains c) = false := by
        show (['%'].contains c) = false
        simp [hne]
      rw [List.dropWhile_cons, hcond]
      simp
  have hdata : (ESC_MAGIC ++ rest).toList = '%' :: rest.toList := by
    show (ESC_MAGIC ++ rest).data = '%' :: rest.data
    rw [String.data_append]
    rfl
  unfold pyLstripChars
  rw [hdata]
  show mkStr (rest.toList.dropWhile (fun c => ESC_MAGIC.toList.contains c)) = rest
  rw [hstep rest.toList hrest]
  show mkStr rest.data = rest
  rfl

/-- C2 (amended): every magic-matcher candidate is the magic escape
followed by a catalog name extending the escape-stripped token; when the
token itself begins with a single magic escape, every candidate does
begin with the token (the claimed invariant fails only for tokens not
carrying the escape, as the counterexample shows). -/
theorem magic_matches_token_with_escape {α : Type} (env : CompleterEnv α)
    (text rest c : String) (htext : text = ESC_MAGIC ++ rest)
    (hrest : strStartsWith rest ESC_MAGIC = false)
    (hc : c ∈ magic_matches env text) : strStartsWith c text = true := by
  subst htext
  simp only [magic_matches] at hc
  rw [pyLstripChars_escape rest hrest] at hc
  rcases List.mem_map.mp hc with ⟨m, hm, hcm⟩
  have hpfx : strStartsWith m rest = true := (List.mem_filter.mp hm).2
  subst hcm
  show listPfx (ESC_MAGIC ++ rest).toList (ESC_MAGIC ++ m).toList = true
  have h1 : (ESC_MAGIC ++ rest).toList = '%' :: rest.toList := by
    show (ESC_MAGIC ++ rest).data = '%' :: rest.data
    rw [String.data_append]; rfl
  have h2 : (ESC_MAGIC ++ m).toList = '%' :: m.toList := by
    show (ESC_MAGIC ++ m).data = '%' :: m.data
    rw [String.data_append]; rfl
  rw [h1, h2]
  show (('%' : Char) == '%' && listPfx rest.toList m.toList) = true
  rw [show (('%' : Char) == '%') = true from rfl, Bool.true_and]
  exact hpfx

/-- Witness for C2 (amended): token `%cd` and candidate `%cd`. -/
theorem magic_matches_token_with_escape_witness :
    strStartsWith "%cd" "%cd" = true :=
  magic_matches_token_with_escape envC2 "%cd" "cd" "%cd" (by decide) (by decide)
    (by decide)

def fsC9 : FsEnv :=
  ⟨fun _ => [], fun s => s == "sub" || s == "sub/", id, fun _ => some []⟩

/-- C9 counterexample: `sub` is a directory, and — as `os.path.isdir`
does on posix — the filesystem also reports the already-marked `sub/` as
a directory; `mark_dirs` then appends a second separator instead of
returning the marked path unchanged. -/
theorem mark_dirs_not_idempotent_cex :
    fsC9.isdir "sub/" = true ∧ mark_dirs fsC9 ["sub/"] = ["sub//"] ∧
    mark_dirs fsC9 (mark_dirs fsC9 ["sub"]) = ["sub//"] := by decide

/-- C9 (amended): `mark_dirs` appends a separator to every path the
filesystem predicate accepts, marked or not; the marking pass is
idempotent precisely under a predicate that rejects separator-terminated
paths. -/
theorem mark_dirs_idempotent_iff_unmarked {fs : FsEnv}
    (h : ∀ s : String, fs.isdir (s ++ "/") = false) :
    ∀ l : List String, mark_dirs fs (mark_dirs fs l) = mark_dirs fs l := by
  intro l
  induction l with
  | nil => rfl
  | cons x t ih =>
    simp only [mark_dirs, List.map_cons, List.cons.injEq]
    refine ⟨?_, ih⟩
    by_cases hx : fs.isdir x = true
    · simp [hx, h x]
    · simp [hx]

/-- An ASCII letter or underscore (an identifier's first character). -/
def pyIsIdentStart (c : Char) : Bool :=
  let n := c.toNat
  (decide (97 ≤ n) && decide (n ≤ 122)) ||
  (decide (65 ≤ n) && decide (n ≤ 90)) || decide (n = 95)

/-- A nonempty identifier segment: letter or underscore, then word
characters. -/
def isIdentSeg : List Char → Bool
  | [] => false
  | c :: t => pyIsIdentStart c && t.all pyIsWordChar

/-- The grammar clause stated by the spec for the namespace matcher's
dotted case, `identifier(.identifier)*.partial`: at least two
dot-separated segments, every leading segment an identifier, the final
segment made of word characters.  (Spec-side definition, for comparison
with the source regex `attrRegexMatch`.) -/
def specGrammarOk (text : String) : Bool :=
  let segs := text.toList.splitOn '.'
  decide (2 ≤ segs.length) && segs.dropLast.all isIdentSeg &&
    (segs.getLastD []).all pyIsWordChar

def envC6 : CompleterEnv Unit :=
  { baseEnvU with
    evalNs := fun e => if e = "a-b" then some () else none
    dir2 := fun _ => ["xy"] }

/-- C6 counterexample: the token `a-b.x` does not match the spec's
grammar `identifier(.identifier)*.partial` (its head `a-b` is no
identifier), yet the source regex `(\S+(\.\w+)*)\.(\w*)$` accepts it, so
with a namespace in which the expression `a-b` evaluates (as Python's
`eval` does for e.g. integer-valued `a` and `b`) `attr_matches` returns
a non-empty result instead of the claimed empty list. -/
theorem attr_grammar_cex :
    specGrammarOk "a-b.x" = false ∧ attr_matches envC6 "a-b.x" = ["a-b.xy"] := by
  decide

/-- C6 (amended): with the grammar being the source's regex
`(\S+(\.\w+)*)\.(\w*)$` (any whitespace-free head before the last dot, a
word-character tail after it) rather than
`identifier(.identifier)*.partial`: a token that fails the regex yields
`[]`; a token whose leading expression resolves in neither namespace
yields `[]` without raising; in particular `notdefined.x` with
`notdefined` unbound yields `[]`. -/
theorem attr_matches_fail_soft {α : Type} (env : CompleterEnv α) :
    (∀ text, attrRegexMatch text = none → attr_matches env text = []) ∧
    (∀ text expr attr, attrRegexMatch text = some (expr, attr) →
      env.evalNs expr = none → env.evalGlobal expr = none →
      attr_matches env text = []) ∧
    (env.evalNs "notdefined" = none → env.evalGlobal "notdefined" = none →
      attr_matches env "notdefined.x" = []) := by
  have hsome : ∀ text expr attr, attrRegexMatch text = some (expr, attr) →
      env.evalNs expr = none → env.evalGlobal expr = none →
      attr_matches env text = [] := by
    intro text expr attr h h1 h2
    unfold attr_matches
    rw [h]
    dsimp only
    rw [h1, h2]
  refine ⟨?_, hsome, ?_⟩
  · intro text h
    unfold attr_matches
    rw [h]
  · intro h1 h2
    exact hsome "notdefined.x" "notdefined" "x" (by decide) h1 h2

/-- Witness for C6 (amended): the unresolved `notdefined.x` scenario. -/
theorem attr_matches_fail_soft_witness :
    attr_matches baseEnvU "notdefined.x" = [] :=
  (attr_matches_fail_soft baseEnvU).2.2 rfl rfl

def cbC7 : CompletionEvent → Option (List String) := fun _ => some ["fooble"]

def envC7 : CompleterEnv Unit := { baseEnvU with customS := [("foo", cbC7)] }

/-- C7 counterexample: a completer registered under the bare pattern
`foo` (and nothing else registered) does NOT fire for the magic-form
buffer `%foo a`: since the command word already starts with the magic
escape, no magic-prefixed retry happens and only the (empty) `%foo`
registrations are consulted, so dispatch yields "no override". -/
theorem bare_pattern_magic_buffer_cex :
    envC7.customS.map Prod.fst = ["foo"] ∧
    dispatch_custom_completer envC7 "%foo a" "%foo a" "foo" = none := by decide

/-- C7 (amended): the magic-prefixed retry works in the opposite
direction of the claim — a completer registered under the magic form
`%foo` fires for a buffer whose command word is the bare `foo`, whenever
no completer registered directly for `foo` matches first. -/
theorem magic_pattern_fires_for_bare {α : Type} (env : CompleterEnv α)
    (full lbuf text cmd : String) (cb : CompletionEvent → Option (List String))
    (res : List String)
    (hblank : ¬ str_strip full = "")
    (hcmd : firstWord full = cmd)
    (hesc : strStartsWith cmd ESC_MAGIC = false)
    (hdirect : s_matches env.customS cmd = [])
    (hmagic : s_matches env.customS (ESC_MAGIC ++ cmd) = [cb])
    (hres : cb (dispatchEvent full text) = some res) :
    dispatch_custom_completer env full lbuf text = some (caseFilter text res) := by
  unfold dispatch_custom_completer dispatchChain
  rw [if_neg hblank, if_neg hblank, hcmd]
  dsimp only
  rw [if_neg (by rw [hesc]; exact Bool.false_ne_true)]
  rw [hdirect, hmagic]
  show dispatchLoop (dispatchEvent full text) text
    (cb :: flat_matches env.customFlat lbuf) = some (caseFilter text res)
  unfold dispatchLoop
  rw [hres]

def cbC7w : CompletionEvent → Option (List String) := fun _ => some ["foo -n"]

def envC7w : CompleterEnv Unit := { baseEnvU with customS := [("%foo", cbC7w)] }

/-- Witness for C7 (amended): the `%foo`-registered completer fires on
the bare buffer `foo a`. -/
theorem magic_pattern_fires_for_bare_witness :
    dispatch_custom_completer envC7w "foo a" "foo a" "foo" =
      some (caseFilter "foo" ["foo -n"]) :=
  magic_pattern_fires_for_bare envC7w "foo a" "foo a" "foo" "foo" cbC7w ["foo -n"]
    (by decide) (by decide) (by decide) rfl rfl rfl

def envC8 : CompleterEnv Unit :=
  { baseEnvU with
    namespaceKeys := ["foo"]
    evalNs := fun e => if e = "foo" then some () else none
    getargspec := fun _ => some (["baz", "qux"], 2) }

/-- C8: the keyword-argument matcher rejects every dotted token
outright; and on buffer `foo(bar, ba` with token `ba`, where `foo`
resolves to a callable whose named parameters with defaults are `baz`
and `qux`, it returns exactly `["baz="]`. -/
theorem kw_matcher_dotless_and_scenario :
    (∀ (α : Type) (env : CompleterEnv α) (lineBuffer text : String),
      text.toList.contains '.' = true →
      python_func_kw_matches env lineBuffer text = []) ∧
    python_func_kw_matches envC8 "foo(bar, ba" "ba" = ["baz="] := by
  constructor
  · intro α env lineBuffer text h
    unfold python_func_kw_matches
    rw [h]
    rfl
  · decide

/-- Witness for C8's dotted-token clause at a concrete input. -/
theorem kw_matcher_dotless_witness :
    python_func_kw_matches envC8 "z" "a.b" = [] :=
  kw_matcher_dotless_and_scenario.1 Unit envC8 "z" "a.b" (by decide)

/-- The index view of a list: entries `l[s]?, l[s+1]?, …` for `n` calls. -/
def indexSeq (l : List String) (s : Nat) : Nat → List (Option String)
  | 0 => []
  | n + 1 => l[s]? :: indexSeq l (s + 1) n

theorem rlRunFrom_cached {α : Type} (env : CompleterEnv α) (text : String)
    (ms : List String) :
    ∀ (n s : Nat), s ≠ 0 → rlRunFrom env text ⟨ms⟩ s n = indexSeq ms s n := by
  intro n
  induction n with
  | zero => intro s _; rfl
  | succ n ih =>
    intro s hs
    show (rlcomplete env ⟨ms⟩ text s).2 ::
      rlRunFrom env text (rlcomplete env ⟨ms⟩ text s).1 (s + 1) n = _
    rw [show rlcomplete env ⟨ms⟩ text s = (⟨ms⟩, ms[s]?) by
      unfold rlcomplete; rw [if_neg hs]]
    show ms[s]? :: rlRunFrom env text ⟨ms⟩ (s + 1) n = indexSeq ms s (n + 1)
    rw [ih (s + 1) (Nat.succ_ne_zero s)]
    rfl

theorem indexSeq_shift (a : String) (t : List String) :
    ∀ n s, indexSeq (a :: t) (s + 1) n = indexSeq t s n := by
  intro n
  induction n with
  | zero => intro s; rfl
  | succ n ih =>
    intro s
    show (a :: t)[s + 1]? :: indexSeq (a :: t) (s + 2) n = t[s]? :: indexSeq t (s + 1) n
    rw [List.getElem?_cons_succ, ih (s + 1)]

theorem indexSeq_full : ∀ l : List String,
    indexSeq l 0 (l.length + 1) = l.map some ++ [none] := by
  intro l
  induction l with
  | nil => rfl
  | cons a t ih =>
    show (a :: t)[0]? :: indexSeq (a :: t) 1 (t.length + 1) =
      some a :: (t.map some ++ [none])
    rw [List.getElem?_cons_zero, show (1 : Nat) = 0 + 1 from rfl, indexSeq_shift, ih]

/-- C5 (amended): provided the readline buffer is non-blank or the
terminal is dumb — otherwise `rlcomplete` inserts a literal tab at
`state == 0` and returns `None` without computing, as the counterexample
shows — the indexed protocol invoked with states `0 … k-1` returns
exactly the `k` candidates of the batch match set in order, and state
`k` returns `None` instead of raising. -/
theorem rl_indexed_protocol {α : Type} (env : CompleterEnv α) (text : String)
    (h : env.dumbTerminal = true ∨ str_strip env.rlLineBuffer ≠ "") :
    rlRun env text ((rlBatch env text).length + 1) =
      (rlBatch env text).map some ++ [none] := by
  have h0 : rlcomplete env ⟨[]⟩ text 0 = (⟨rlBatch env text⟩, (rlBatch env text)[0]?) := by
    unfold rlcomplete
    rw [if_pos rfl, if_neg (not_not.mpr h)]
  unfold rlRun
  show (rlcomplete env ⟨[]⟩ text 0).2 ::
    rlRunFrom env text (rlcomplete env ⟨[]⟩ text 0).1 1 ((rlBatch env text).length) = _
  rw [h0]
  show (rlBatch env text)[0]? ::
    rlRunFrom env text ⟨rlBatch env text⟩ 1 ((rlBatch env text).length) = _
  rw [rlRunFrom_cached env text (rlBatch env text) _ 1 one_ne_zero]
  have h2 := indexSeq_full (rlBatch env text)
  exact h2 ▸ rfl

def envC5w : CompleterEnv Unit := { baseEnvU with rlLineBuffer := "x", rlEndidx := 1 }

/-- Witness for C5 (amended) on a non-blank buffer. -/
theorem rl_indexed_protocol_witness :
    rlRun envC5w "x" ((rlBatch envC5w "x").length + 1) =
      (rlBatch envC5w "x").map some ++ [none] :=
  rl_indexed_protocol envC5w "x" (Or.inr (by decide))

def envC5c : CompleterEnv Unit := { baseEnvU with kwlist := ["and"] }

/-- C5 counterexample: on a blank readline buffer of a non-dumb
terminal, the batch match set for the empty token is `["and"]` (one
candidate), yet `rlcomplete` at state `0` returns `None` — the tab
shortcut pre-empts the protocol, so the claimed equivalence fails. -/
theorem rl_blank_line_cex :
    rlBatch envC5c "" = ["and"] ∧ rlRun envC5c "" 1 = [none] := by decide

def fsC9w : FsEnv := ⟨fun _ => [], fun s => s == "sub", id, fun _ => some []⟩

theorem fsC9w_rejects_marked (s : String) : fsC9w.isdir (s ++ "/") = false := by
  show ((s ++ "/") == "sub") = false
  apply beq_eq_false_iff_ne.mpr
  intro hcontra
  have hd : s.data ++ ['/'] = "sub".data := by
    have := congrArg String.data hcontra
    rw [String.data_append] at this
    exact this
  have h1 : (s.data ++ ['/']).getLast? = some '/' := List.getLast?_concat _
  rw [hd] at h1
  exact absurd h1 (by decide)

/-- Witness for C9 (amended): under a predicate rejecting marked paths,
two marking passes agree with one. -/
theorem mark_dirs_idempotent_witness :
    mark_dirs fsC9w (mark_dirs fsC9w ["sub", "a.txt"]) =
      mark_dirs fsC9w ["sub", "a.txt"] :=
  mark_dirs_idempotent_iff_unmarked fsC9w_rejects_marked ["sub", "a.txt"]
